import Mathlib

/-!
# URL shortener microservice (`index.js`)

A shallow embedding of the three API handlers of `index.js` and of the two
module-level variables they share, `urlDatabase` and `shortUrlCounter`.

Modelling conventions.

* `urlDatabase` is a plain JavaScript object (`{}`), so its property keys are
  strings and a read `urlDatabase[k]` that finds no own property continues in
  `Object.prototype`.  Both facts are part of the model (`getProperty`).
* `shortUrlCounter` starts at `1` and only ever moves by `++`, so it is a
  positive integer; it is modelled by `Nat`.  (A Number is a double; `++` and
  the conversion to a key are exact on integers below `2 ^ 53`, and the
  counter is one more than the number of records held in memory.)  A Number
  used as a property key is converted with ToString, which for such an
  integer is its decimal numeral without leading zeros (`numberToString`).
* `new URL(..)` and `dns.lookup(..)` belong to the platform, not to the
  repository.  The parser is a parameter `parseURL` (`none` when the
  constructor throws); the answer of the resolver is part of the input
  (`DnsResult`).
* The POST handler ends by handing a callback to `dns.lookup`.  The handler
  body up to that point is `postShorturl`, the callback is `lookupCallback`.
  `handle` runs one request to completion; `step` is the event loop, where
  callbacks of several pending requests may run in any order.  A turn of the
  event loop is one handler body or one callback, run from its first
  statement to its return: JavaScript runs one function at a time and neither
  body contains a point of suspension.
-/

namespace UrlShortener

/-! ## JavaScript values and the plain object `urlDatabase` -/

/-- The JavaScript values that occur in the handlers: `undefined` (a missing
body field, a missing property), a string, an array of strings (what the
`urlencoded` body parser yields for a repeated field), and a member of
`Object.prototype` reached through the prototype chain, named by its key. -/
inductive JSValue where
  | undefined
  | str (s : String)
  | arr (items : List String)
  | inherited (name : String)
  deriving DecidableEq

/-- ToBoolean, as used by `if (originalUrl)`. -/
def truthy : JSValue → Bool
  | .undefined => false
  | .str s => s != ""
  | .arr _ => true
  | .inherited _ => true

/-- ToString, as applied by `new URL(..)` to its argument. -/
def toJSString : JSValue → String
  | .undefined => "undefined"
  | .str s => s
  | .arr items => ",".intercalate items
  | .inherited name =>
    if name = "__proto__" then "[object Object]"
    else "function " ++ name ++ "() \x7b [native code] \x7d"

/-- ToString of a Number that is a non-negative integer: its decimal numeral. -/
def numberToString (n : Nat) : String := toString n

/-- The keys of the properties of `Object.prototype`, which every object
created by `{}` inherits. -/
def objectPrototypeNames : List String :=
  ["constructor", "__defineGetter__", "__defineSetter__", "hasOwnProperty",
   "__lookupGetter__", "__lookupSetter__", "isPrototypeOf", "propertyIsEnumerable",
   "toString", "valueOf", "__proto__", "toLocaleString"]

/-- A plain object, as the list of its own properties. -/
abbrev JSObject := List (String × JSValue)

/-- The own property `k` of `o`, if there is one. -/
def ownProperty (o : JSObject) (k : String) : Option JSValue :=
  match o with
  | [] => none
  | (k', v) :: rest => if k' = k then some v else ownProperty rest k

/-- The read `o[k]`: the own property if present, otherwise the member of
`Object.prototype` of that name, otherwise `undefined`. -/
def getProperty (o : JSObject) (k : String) : JSValue :=
  match ownProperty o k with
  | some v => v
  | none => if k ∈ objectPrototypeNames then .inherited k else .undefined

/-- The assignment `o[k] = v` for a key that names a data property: the own
property is overwritten if present and created otherwise. -/
def setProperty (o : JSObject) (k : String) (v : JSValue) : JSObject :=
  match o with
  | [] => [(k, v)]
  | (k', v') :: rest =>
    if k' = k then (k', v) :: rest else (k', v') :: setProperty rest k v

/-- The keys of the own properties of `o`. -/
def ownKeys (o : JSObject) : List String := o.map Prod.fst

/-! ## Platform interfaces -/

/-- The two fields of a parsed `URL` object that the handler reads. -/
structure URLRecord where
  protocol : String
  hostname : String
  deriving DecidableEq

/-- The arguments `dns.lookup` passes to its callback: `err` (absent on
success) and `address` (absent when there is none). -/
structure DnsResult where
  err : Option String
  address : Option String
  deriving DecidableEq

/-- The test `err || !address` of the callback. -/
def DnsResult.failed (r : DnsResult) : Bool :=
  r.err.isSome || !(match r.address with
    | none => false
    | some a => a != "")

/-! ## Responses -/

/-- The object handed to `res.json`. -/
inductive JsonBody where
  | greeting (greeting : String)
  | error (error : String)
  | shortened (original_url : JSValue) (short_url : Nat)
  deriving DecidableEq

/-- What a handler sends: `res.json(body)` or `res.redirect(url)`. -/
inductive Response where
  | json (body : JsonBody)
  | redirect (url : JSValue)
  deriving DecidableEq

/-- The body `{ error: 'invalid url' }`. -/
def invalidUrl : Response := .json (.error "invalid url")

/-- The body `{ error: 'No short URL found for the given input' }`. -/
def notFound : Response := .json (.error "No short URL found for the given input")

/-! ## Module state and handlers -/

/-- The module-level variables `urlDatabase` and `shortUrlCounter`. -/
structure Registry where
  urlDatabase : JSObject
  shortUrlCounter : Nat
  deriving DecidableEq

/-- The state at process start: `urlDatabase = {}`, `shortUrlCounter = 1`. -/
def Registry.initial : Registry := { urlDatabase := [], shortUrlCounter := 1 }

/-- The handler of `GET /api/hello`. -/
def getHello : Response := .json (.greeting "hello API")

/-- The `try` block of the POST handler: the hostname, or the thrown error. -/
def tryBlock (parseURL : String → Option URLRecord) (originalUrl : JSValue) :
    Except String String :=
  match parseURL (toJSString originalUrl) with
  | none => .error "Invalid URL"
  | some parsedUrl =>
    if parsedUrl.protocol ≠ "http:" ∧ parsedUrl.protocol ≠ "https:" then
      .error "Invalid protocol"
    else
      .ok parsedUrl.hostname

/-- What the body of the POST handler does before it returns: it either
answers at once, or calls `dns.lookup(hostname, callback)`, the callback
holding `originalUrl`. -/
inductive PostOutcome where
  | respond (r : Response)
  | dnsLookup (hostname : String) (originalUrl : JSValue)
  deriving DecidableEq

/-- The handler of `POST /api/shorturl`, up to the call of `dns.lookup`. -/
def postShorturl (parseURL : String → Option URLRecord) (originalUrl : JSValue) :
    PostOutcome :=
  match tryBlock parseURL originalUrl with
  | .error _ => .respond invalidUrl
  | .ok hostname => .dnsLookup hostname originalUrl

/-- The callback given to `dns.lookup`, run with the resolver's answer. -/
def lookupCallback (db : Registry) (originalUrl : JSValue) (r : DnsResult) :
    Registry × Response :=
  if r.failed then
    (db, invalidUrl)
  else
    let shortUrl := db.shortUrlCounter
    ({ urlDatabase := setProperty db.urlDatabase (numberToString shortUrl) originalUrl,
       shortUrlCounter := db.shortUrlCounter + 1 },
     .json (.shortened originalUrl shortUrl))

/-- The handler of `GET /api/shorturl/:short_url`. -/
def getShorturl (db : Registry) (shortUrlId : String) : Response :=
  let originalUrl := getProperty db.urlDatabase shortUrlId
  if truthy originalUrl then .redirect originalUrl else notFound

/-! ## Requests served one after the other -/

/-- A request together with what the environment will answer to it: for a
creation, the answer of the resolver should the handler ask for one. -/
inductive Request where
  | hello
  | create (url : JSValue) (dns : DnsResult)
  | visit (short_url : String)
  deriving DecidableEq

/-- One request served to completion. -/
def handle (parseURL : String → Option URLRecord) (db : Registry) :
    Request → Registry × Response
  | .hello => (db, getHello)
  | .create url dns =>
    match postShorturl parseURL url with
    | .respond r => (db, r)
    | .dnsLookup _ originalUrl => lookupCallback db originalUrl dns
  | .visit short_url => (db, getShorturl db short_url)

/-- The state after a sequence of requests. -/
def run (parseURL : String → Option URLRecord) (db : Registry) : List Request → Registry
  | [] => db
  | req :: rest => run parseURL (handle parseURL db req).1 rest

/-- The responses to a sequence of requests, in order. -/
def responses (parseURL : String → Option URLRecord) (db : Registry) :
    List Request → List Response
  | [] => []
  | req :: rest =>
    (handle parseURL db req).2 :: responses parseURL (handle parseURL db req).1 rest

/-- The `short_url` of a response to a successful creation. -/
def shortUrlOf : Response → Option Nat
  | .json (.shortened _ short_url) => some short_url
  | _ => none

/-- The `short_url` values of the successful creations among `rs`, in order. -/
def issuedIds (rs : List Response) : List Nat := rs.filterMap shortUrlOf

/-! ## The event loop -/

/-- The server between two turns of the event loop: the module state and the
callbacks `dns.lookup` still holds, each given by the hostname asked for and
the `originalUrl` the callback closes over. -/
structure Server where
  registry : Registry
  pending : List (String × JSValue)
  deriving DecidableEq

/-- The server at process start. -/
def Server.initial : Server := { registry := Registry.initial, pending := [] }

/-- One turn of the event loop: a request arrives and its handler runs until
it returns, or the resolver finishes the `i`-th pending lookup and the
callback runs until it returns. -/
inductive Event where
  | hello
  | post (url : JSValue)
  | get (short_url : String)
  | dnsDone (i : Nat) (dns : DnsResult)
  deriving DecidableEq

/-- The effect of one turn: the new server and the response sent, if any. -/
def step (parseURL : String → Option URLRecord) (s : Server) :
    Event → Server × Option Response
  | .hello => (s, some getHello)
  | .post url =>
    match postShorturl parseURL url with
    | .respond r => (s, some r)
    | .dnsLookup hostname originalUrl =>
      ({ s with pending := s.pending ++ [(hostname, originalUrl)] }, none)
  | .get short_url => (s, some (getShorturl s.registry short_url))
  | .dnsDone i dns =>
    match s.pending[i]? with
    | none => (s, none)
    | some (_, originalUrl) =>
      ({ registry := (lookupCallback s.registry originalUrl dns).1,
         pending := s.pending.eraseIdx i },
       some (lookupCallback s.registry originalUrl dns).2)

/-- The server after a sequence of turns. -/
def runEvents (parseURL : String → Option URLRecord) (s : Server) : List Event → Server
  | [] => s
  | ev :: rest => runEvents parseURL (step parseURL s ev).1 rest

/-- The responses sent during a sequence of turns, in the order sent. -/
def eventResponses (parseURL : String → Option URLRecord) (s : Server) :
    List Event → List Response
  | [] => []
  | ev :: rest =>
    match (step parseURL s ev).2 with
    | some r => r :: eventResponses parseURL (step parseURL s ev).1 rest
    | none => eventResponses parseURL (step parseURL s ev).1 rest

/-! ## Decimal numerals and numeric strings -/

/-- A decimal digit, `0` to `9`. -/
def isDecimalDigit (c : Char) : Bool := decide (48 ≤ c.toNat) && decide (c.toNat ≤ 57)

/-- The value of a decimal digit character. -/
def digitValue (c : Char) : Nat := c.toNat - 48

/-- The number written by a list of decimal digits, most significant first. -/
def ofDigitChars (cs : List Char) : Nat :=
  cs.foldl (fun acc c => acc * 10 + digitValue c) 0

/-- White space around a numeric string: tab, line feed, vertical tab, form
feed, carriage return, space, no-break space, byte order mark. -/
def isStrWhiteSpace (c : Char) : Bool :=
  c.toNat ∈ [9, 10, 11, 12, 13, 32, 160, 65279]

/-- The string without its leading and trailing white space. -/
def trimWhiteSpace (cs : List Char) : List Char :=
  ((cs.dropWhile isStrWhiteSpace).reverse.dropWhile isStrWhiteSpace).reverse

/-- A non-empty run of decimal digits, read as a number. -/
def readDigits (cs : List Char) : Option Nat :=
  if cs ≠ [] ∧ cs.all isDecimalDigit then some (ofDigitChars cs) else none

/-- The exponent part of a decimal literal: nothing, or `e` or `E`, an
optional sign and digits. -/
def readExponent : List Char → Option Int
  | [] => some 0
  | c :: rest =>
    if c.toNat = 101 ∨ c.toNat = 69 then
      match rest with
      | [] => none
      | d :: ds =>
        if d.toNat = 43 then (readDigits ds).map Int.ofNat
        else if d.toNat = 45 then (readDigits ds).map (fun n => - Int.ofNat n)
        else (readDigits (d :: ds)).map Int.ofNat
    else none

/-- An unsigned decimal literal: digits, an optional `.` with more digits, an
optional exponent, and at least one digit before the exponent.  The result
`(m, e)` stands for `m * 10 ^ e`. -/
def readUnsigned (cs : List Char) : Option (Nat × Int) :=
  let intPart := cs.takeWhile isDecimalDigit
  let afterInt := cs.dropWhile isDecimalDigit
  let fracPart :=
    match afterInt with
    | [] => []
    | c :: r => if c.toNat = 46 then r.takeWhile isDecimalDigit else []
  let afterFrac :=
    match afterInt with
    | [] => []
    | c :: r => if c.toNat = 46 then r.dropWhile isDecimalDigit else c :: r
  if intPart = [] ∧ fracPart = [] then none
  else
    match readExponent afterFrac with
    | none => none
    | some e => some (ofDigitChars (intPart ++ fracPart), e - fracPart.length)

/-- The value of a digit in base `base`: `0`-`9`, `a`-`f`, `A`-`F`. -/
def radixDigit (base : Nat) (c : Char) : Option Nat :=
  if 48 ≤ c.toNat ∧ c.toNat ≤ 57 ∧ c.toNat - 48 < base then some (c.toNat - 48)
  else if 97 ≤ c.toNat ∧ c.toNat ≤ 102 ∧ c.toNat - 87 < base then some (c.toNat - 87)
  else if 65 ≤ c.toNat ∧ c.toNat ≤ 70 ∧ c.toNat - 55 < base then some (c.toNat - 55)
  else none

/-- A non-empty run of digits in base `base`, read as a number. -/
def readRadix (base : Nat) (cs : List Char) : Option Nat :=
  if cs = [] then none
  else cs.foldl (fun acc c =>
    match acc, radixDigit base c with
    | some a, some d => some (a * base + d)
    | _, _ => none) (some 0)

/-- A hexadecimal, octal or binary integer literal: `0x..`, `0o..`, `0b..`. -/
def readNonDecimal : List Char → Option Nat
  | z :: x :: rest =>
    if z.toNat = 48 then
      if x.toNat = 120 ∨ x.toNat = 88 then readRadix 16 rest
      else if x.toNat = 111 ∨ x.toNat = 79 then readRadix 8 rest
      else if x.toNat = 98 ∨ x.toNat = 66 then readRadix 2 rest
      else none
    else none
  | _ => none

/-- A numeric string: white space, then nothing (zero), or a hexadecimal, octal
or binary integer literal, or an optional sign and an unsigned decimal literal,
then white space.  The result `(negative, m, e)` stands for `m * 10 ^ e`,
negated if `negative`. -/
def readNumber (k : String) : Option (Bool × Nat × Int) :=
  match trimWhiteSpace k.toList with
  | [] => some (false, 0, 0)
  | c :: r =>
    match readNonDecimal (c :: r) with
    | some n => some (false, n, 0)
    | none =>
      if c.toNat = 43 then (readUnsigned r).map (fun me => (false, me))
      else if c.toNat = 45 then (readUnsigned r).map (fun me => (true, me))
      else (readUnsigned (c :: r)).map (fun me => (false, me))

/-- The string `k` is notation for the number `i`: it reads as `m * 10 ^ e`
and that value is `i`. -/
def denotes (k : String) (i : Nat) : Bool :=
  match readNumber k with
  | none => false
  | some (negative, m, e) =>
    if negative then decide (m = 0 ∧ i = 0)
    else if 0 ≤ e then decide (m * 10 ^ e.toNat = i)
    else decide (m = i * 10 ^ (-e).toNat)

/-! ## Successful creations, by their input -/

/-- The request is a creation whose URL passes validation (the `try` block
yields a hostname) and whose hostname resolves (the resolver answers without
error and with an address). -/
def succeedsIn (parseURL : String → Option URLRecord) : Request → Bool
  | .create url dns =>
    (match tryBlock parseURL url with
      | .ok _ => true
      | .error _ => false) && !dns.failed
  | _ => false

/-! ## The registry invariant -/

/-- The own keys of `urlDatabase` are the decimal numerals of `1`, ..., up to
the counter excluded, in the order they were added. -/
def Registry.WellFormed (db : Registry) : Prop :=
  1 ≤ db.shortUrlCounter ∧
    ownKeys db.urlDatabase = (List.range' 1 (db.shortUrlCounter - 1)).map numberToString

/-- Every stored value passes the test `if (originalUrl)`. -/
def Registry.AllTruthy (db : Registry) : Prop :=
  ∀ p ∈ db.urlDatabase, truthy p.2 = true

/-! ## Assumption on the platform and sample data -/

/-- What is used of the URL parser: a string it accepts as an absolute URL
contains a colon, the end of the scheme. -/
def SchemeRequired (parseURL : String → Option URLRecord) : Prop :=
  ∀ s, (parseURL s).isSome = true → 58 ∈ s.toList.map Char.toNat

/-- A small stand-in for the URL parser, enough to evaluate the handlers on
examples: it knows three inputs. -/
def sampleParseURL (s : String) : Option URLRecord :=
  if s = "https://www.freecodecamp.org" then
    some { protocol := "https:", hostname := "www.freecodecamp.org" }
  else if s = "http://example.com/a,b" then
    some { protocol := "http:", hostname := "example.com" }
  else if s = "ftp://example.com" then
    some { protocol := "ftp:", hostname := "example.com" }
  else none

/-- A resolver answer with an address. -/
def resolved : DnsResult := { err := none, address := some "104.26.2.33" }

/-- A resolver answer with an error. -/
def unresolved : DnsResult := { err := some "ENOTFOUND", address := none }

/-- The scenarios of the API on the sample parser, served one after the other. -/
theorem sample_requests : responses sampleParseURL Registry.initial
    [.create (.str "https://www.freecodecamp.org") resolved,
     .create (.str "ftp://example.com") resolved,
     .create (.str "https://www.freecodecamp.org") unresolved,
     .visit "1", .visit "42", .visit "01", .visit "constructor"] =
    [.json (.shortened (.str "https://www.freecodecamp.org") 1),
     invalidUrl, invalidUrl,
     .redirect (.str "https://www.freecodecamp.org"),
     notFound, notFound, .redirect (.inherited "constructor")] := by
  decide

/-- Strings that are, and strings that are not, notation for a number. -/
theorem sample_numerals : denotes "01" 1 = true ∧ denotes "+1" 1 = true ∧
    denotes "1.0" 1 = true ∧ denotes "1e0" 1 = true ∧ denotes " 1 " 1 = true ∧
    denotes "10e-1" 1 = true ∧ denotes "1" 1 = true ∧ denotes "0.1e1" 1 = true ∧
    denotes "0x1" 1 = true ∧ denotes "0b1" 1 = true ∧ denotes "0x1f" 31 = true ∧
    denotes "12" 1 = false ∧ denotes "constructor" 1 = false ∧ denotes "1x" 1 = false ∧
    denotes "." 0 = false ∧ denotes "" 0 = true ∧ denotes "0x" 0 = false ∧
    denotes "+0x1" 1 = false ∧ denotes "120" 120 = true ∧ denotes "1.2e2" 120 = true := by
  decide

/-- Two creations whose lookups finish in the opposite order of their arrival:
the one that finishes first gets id `1`. -/
theorem sample_turns : eventResponses sampleParseURL Server.initial
    [.post (.str "https://www.freecodecamp.org"), .post (.arr ["http://example.com/a", "b"]),
     .post (.str "nonsense"), .dnsDone 1 resolved, .dnsDone 0 resolved, .get "1", .get "2"] =
    [invalidUrl, .json (.shortened (.arr ["http://example.com/a", "b"]) 1),
     .json (.shortened (.str "https://www.freecodecamp.org") 2),
     .redirect (.arr ["http://example.com/a", "b"]),
     .redirect (.str "https://www.freecodecamp.org")] := by
  decide

/-! ## Lemmas on decimal numerals -/

theorem digitValue_digitChar (d : Nat) (h : d < 10) : digitValue (Nat.digitChar d) = d := by
  interval_cases d <;> rfl

theorem isDecimalDigit_digitChar (d : Nat) (h : d < 10) :
    isDecimalDigit (Nat.digitChar d) = true := by
  interval_cases d <;> rfl

theorem foldl_toDigitsCore (fuel : Nat) :
    ∀ (n : Nat) (ds : List Char), n < fuel →
      (Nat.toDigitsCore 10 fuel n ds).foldl (fun acc c => acc * 10 + digitValue c) 0 =
        ds.foldl (fun acc c => acc * 10 + digitValue c) n := by
  induction fuel with
  | zero => intro n ds h; omega
  | succ fuel ih =>
    intro n ds h
    have hd : digitValue (Nat.digitChar (n % 10)) = n % 10 :=
      digitValue_digitChar _ (Nat.mod_lt _ (by decide))
    simp only [Nat.toDigitsCore]
    split
    · rename_i h0
      simp only [List.foldl_cons, hd]
      congr 1
      omega
    · rename_i h0
      rw [ih (n / 10) _ (by omega)]
      simp only [List.foldl_cons, hd]
      congr 1
      omega

theorem ofDigitChars_toDigits (n : Nat) : ofDigitChars (Nat.toDigits 10 n) = n := by
  unfold ofDigitChars Nat.toDigits
  rw [foldl_toDigitsCore (n + 1) n [] (by omega)]
  rfl

theorem numberToString_data (n : Nat) : (numberToString n).data = Nat.toDigits 10 n := rfl

theorem numberToString_injective : Function.Injective numberToString := by
  intro a b h
  have h' : Nat.toDigits 10 a = Nat.toDigits 10 b := by
    rw [← numberToString_data, ← numberToString_data, h]
  have := congrArg ofDigitChars h'
  simpa [ofDigitChars_toDigits] using this

theorem all_isDigit_toDigitsCore (fuel : Nat) :
    ∀ (n : Nat) (ds : List Char), (∀ c ∈ ds, isDecimalDigit c = true) →
      ∀ c ∈ Nat.toDigitsCore 10 fuel n ds, isDecimalDigit c = true := by
  induction fuel with
  | zero => intro n ds h; simpa [Nat.toDigitsCore] using h
  | succ fuel ih =>
    intro n ds h
    have hd : isDecimalDigit (Nat.digitChar (n % 10)) = true :=
      isDecimalDigit_digitChar _ (Nat.mod_lt _ (by decide))
    have hcons : ∀ c ∈ Nat.digitChar (n % 10) :: ds, isDecimalDigit c = true := by
      intro c hc
      rcases List.mem_cons.1 hc with rfl | hc
      · exact hd
      · exact h c hc
    simp only [Nat.toDigitsCore]
    split
    · exact hcons
    · exact ih _ _ hcons

theorem all_isDigit_toDigits (n : Nat) : ∀ c ∈ Nat.toDigits 10 n, isDecimalDigit c = true :=
  all_isDigit_toDigitsCore _ _ _ (by simp)

theorem toDigitsCore_ne_nil (fuel n : Nat) (ds : List Char) (h : 0 < fuel) :
    Nat.toDigitsCore 10 fuel n ds ≠ [] := by
  induction fuel generalizing n ds with
  | zero => omega
  | succ fuel ih =>
    simp only [Nat.toDigitsCore]
    split
    · simp
    · cases fuel with
      | zero => simp [Nat.toDigitsCore]
      | succ fuel => exact ih _ _ (by omega)

theorem toDigits_ne_nil (n : Nat) : Nat.toDigits 10 n ≠ [] :=
  toDigitsCore_ne_nil _ _ _ (by omega)

/-! ## Lemmas on plain objects -/

theorem ownProperty_setProperty_self (o : JSObject) (k : String) (v : JSValue) :
    ownProperty (setProperty o k v) k = some v := by
  induction o with
  | nil => simp [setProperty, ownProperty]
  | cons p rest ih =>
    obtain ⟨k', v'⟩ := p
    by_cases h : k' = k
    · simp [setProperty, ownProperty, h]
    · simp [setProperty, ownProperty, h, ih]

theorem ownProperty_setProperty_ne (o : JSObject) (k k' : String) (v : JSValue)
    (hne : k' ≠ k) : ownProperty (setProperty o k v) k' = ownProperty o k' := by
  induction o with
  | nil =>
    have : ¬ k = k' := fun h => hne h.symm
    simp [setProperty, ownProperty, this]
  | cons p rest ih =>
    obtain ⟨k₀, v₀⟩ := p
    by_cases h : k₀ = k
    · subst h
      have : ¬ k₀ = k' := fun h => hne h.symm
      simp [setProperty, ownProperty, this]
    · by_cases h' : k₀ = k'
      · subst h'
        simp [setProperty, ownProperty, h]
      · simp [setProperty, ownProperty, h, h', ih]

theorem ownKeys_setProperty_new (o : JSObject) (k : String) (v : JSValue)
    (hk : k ∉ ownKeys o) : ownKeys (setProperty o k v) = ownKeys o ++ [k] := by
  induction o with
  | nil => simp [setProperty, ownKeys]
  | cons p rest ih =>
    obtain ⟨k₀, v₀⟩ := p
    have h0 : ¬ k₀ = k := by
      intro h
      exact hk (by simp [ownKeys, h])
    have hrest : k ∉ ownKeys rest := by
      intro h
      exact hk (by simp [ownKeys] at h ⊢; exact Or.inr h)
    have := ih hrest
    simp only [ownKeys] at this ⊢
    simp [setProperty, h0, this]

theorem ownProperty_eq_none (o : JSObject) (k : String) (hk : k ∉ ownKeys o) :
    ownProperty o k = none := by
  induction o with
  | nil => rfl
  | cons p rest ih =>
    obtain ⟨k₀, v₀⟩ := p
    have h0 : ¬ k₀ = k := by
      intro h
      exact hk (by simp [ownKeys, h])
    have hrest : k ∉ ownKeys rest := by
      intro h
      exact hk (by simp [ownKeys] at h ⊢; exact Or.inr h)
    simp [ownProperty, h0, ih hrest]

theorem ownProperty_mem (o : JSObject) (k : String) (v : JSValue)
    (h : ownProperty o k = some v) : (k, v) ∈ o := by
  induction o with
  | nil => simp [ownProperty] at h
  | cons p rest ih =>
    obtain ⟨k₀, v₀⟩ := p
    by_cases h0 : k₀ = k
    · simp [ownProperty, h0] at h
      simp [h0, h]
    · simp [ownProperty, h0] at h
      exact List.mem_cons_of_mem _ (ih h)

theorem ownProperty_isSome_of_mem (o : JSObject) (k : String) (hk : k ∈ ownKeys o) :
    ∃ v, ownProperty o k = some v := by
  induction o with
  | nil => simp [ownKeys] at hk
  | cons p rest ih =>
    obtain ⟨k₀, v₀⟩ := p
    by_cases h0 : k₀ = k
    · exact ⟨v₀, by simp [ownProperty, h0]⟩
    · have : k ∈ ownKeys rest := by
        simp only [ownKeys, List.map_cons, List.mem_cons] at hk
        rcases hk with hk | hk
        · exact absurd hk.symm h0
        · exact hk
      obtain ⟨v, hv⟩ := ih this
      exact ⟨v, by simp [ownProperty, h0, hv]⟩

theorem mem_setProperty (o : JSObject) (k : String) (v : JSValue) (p : String × JSValue)
    (hp : p ∈ setProperty o k v) : p ∈ o ∨ p.2 = v := by
  induction o with
  | nil =>
    simp [setProperty] at hp
    exact Or.inr (by simp [hp])
  | cons q rest ih =>
    obtain ⟨k₀, v₀⟩ := q
    by_cases h0 : k₀ = k
    · simp only [setProperty, h0, if_true, List.mem_cons] at hp
      rcases hp with hp | hp
      · exact Or.inr (by simp [hp])
      · exact Or.inl (List.mem_cons_of_mem _ hp)
    · simp only [setProperty, h0, if_false, List.mem_cons] at hp
      rcases hp with hp | hp
      · exact Or.inl (by simp [hp])
      · rcases ih hp with h | h
        · exact Or.inl (List.mem_cons_of_mem _ h)
        · exact Or.inr h

/-! ## Lemmas on the callback and the handlers -/

theorem numberToString_not_mem_range (c n : Nat) (h : n ≤ c - 1) :
    numberToString c ∉ (List.range' 1 n).map numberToString := by
  intro hmem
  obtain ⟨j, hj, hjc⟩ := List.mem_map.1 hmem
  have := numberToString_injective hjc
  subst this
  have := List.mem_range'_1.1 hj
  omega

theorem lookupCallback_failed (db : Registry) (o : JSValue) (r : DnsResult)
    (h : r.failed = true) : lookupCallback db o r = (db, invalidUrl) := by
  simp [lookupCallback, h]

theorem lookupCallback_ok (db : Registry) (o : JSValue) (r : DnsResult)
    (h : r.failed = false) :
    lookupCallback db o r =
      ({ urlDatabase := setProperty db.urlDatabase (numberToString db.shortUrlCounter) o,
         shortUrlCounter := db.shortUrlCounter + 1 },
       .json (.shortened o db.shortUrlCounter)) := by
  simp [lookupCallback, h]

theorem lookupCallback_wellFormed (db : Registry) (o : JSValue) (r : DnsResult)
    (h : db.WellFormed) : (lookupCallback db o r).1.WellFormed := by
  cases hf : r.failed
  · rw [lookupCallback_ok db o r hf]
    obtain ⟨h1, hk⟩ := h
    refine ⟨by simp, ?_⟩
    have hnew : numberToString db.shortUrlCounter ∉ ownKeys db.urlDatabase := by
      rw [hk]
      exact numberToString_not_mem_range _ _ (le_refl _)
    simp only [ownKeys_setProperty_new _ _ _ hnew, hk, Nat.add_sub_cancel]
    obtain ⟨db0, c⟩ := db
    obtain ⟨c', rfl⟩ : ∃ c', c = c' + 1 := ⟨c - 1, by simp at h1; omega⟩
    simp [List.range'_1_concat, Nat.add_comm]
  · rw [lookupCallback_failed db o r hf]
    exact h

theorem lookupCallback_counter_le (db : Registry) (o : JSValue) (r : DnsResult) :
    db.shortUrlCounter ≤ (lookupCallback db o r).1.shortUrlCounter := by
  cases hf : r.failed
  · rw [lookupCallback_ok db o r hf]
    simp
  · rw [lookupCallback_failed db o r hf]

theorem lookupCallback_allTruthy (db : Registry) (o : JSValue) (r : DnsResult)
    (h : db.AllTruthy) (ho : truthy o = true) : (lookupCallback db o r).1.AllTruthy := by
  cases hf : r.failed
  · rw [lookupCallback_ok db o r hf]
    intro p hp
    rcases mem_setProperty _ _ _ _ hp with hp | hp
    · exact h p hp
    · rw [hp]
      exact ho
  · rw [lookupCallback_failed db o r hf]
    exact h

theorem lookupCallback_ownProperty (db : Registry) (o : JSValue) (r : DnsResult)
    (h : db.WellFormed) (k : String) (v : JSValue)
    (hk : ownProperty db.urlDatabase k = some v) :
    ownProperty (lookupCallback db o r).1.urlDatabase k = some v := by
  cases hf : r.failed
  · rw [lookupCallback_ok db o r hf]
    have hne : k ≠ numberToString db.shortUrlCounter := by
      intro heq
      have hnew : numberToString db.shortUrlCounter ∉ ownKeys db.urlDatabase := by
        rw [h.2]
        exact numberToString_not_mem_range _ _ (le_refl _)
      rw [← heq] at hnew
      rw [ownProperty_eq_none _ _ hnew] at hk
      cases hk
    simp only
    rw [ownProperty_setProperty_ne _ _ _ _ hne]
    exact hk
  · rw [lookupCallback_failed db o r hf]
    exact hk

theorem lookupCallback_issued (db : Registry) (o : JSValue) (r : DnsResult) :
    issuedIds [(lookupCallback db o r).2] =
      List.range' db.shortUrlCounter
        ((lookupCallback db o r).1.shortUrlCounter - db.shortUrlCounter) := by
  cases hf : r.failed
  · rw [lookupCallback_ok db o r hf]
    simp [issuedIds, shortUrlOf]
  · rw [lookupCallback_failed db o r hf]
    simp [issuedIds, shortUrlOf, invalidUrl]

theorem truthy_of_tryBlock (parseURL : String → Option URLRecord)
    (hp : SchemeRequired parseURL) (o : JSValue) (hostname : String)
    (h : tryBlock parseURL o = .ok hostname) : truthy o = true := by
  cases o with
  | undefined =>
    exfalso
    unfold tryBlock at h
    cases hq : parseURL (toJSString JSValue.undefined) with
    | none => simp [hq] at h
    | some rec =>
      have := hp _ (by rw [hq]; rfl)
      revert this
      decide
  | str s =>
    unfold tryBlock at h
    cases hq : parseURL (toJSString (JSValue.str s)) with
    | none => simp [hq] at h
    | some rec =>
      have := hp _ (by rw [hq]; rfl)
      simp only [truthy, bne_iff_ne, ne_eq]
      intro hs
      subst hs
      revert this
      decide
  | arr items => rfl
  | inherited name => rfl

theorem postShorturl_cases (parseURL : String → Option URLRecord) (url : JSValue) :
    postShorturl parseURL url = .respond invalidUrl ∨
      ∃ hostname, tryBlock parseURL url = .ok hostname ∧
        postShorturl parseURL url = .dnsLookup hostname url := by
  unfold postShorturl
  cases h : tryBlock parseURL url with
  | error e => exact Or.inl rfl
  | ok hostname => exact Or.inr ⟨hostname, rfl, rfl⟩

theorem handle_wellFormed (parseURL : String → Option URLRecord) (db : Registry)
    (req : Request) (h : db.WellFormed) : (handle parseURL db req).1.WellFormed := by
  cases req with
  | hello => exact h
  | visit k => exact h
  | create url dns =>
    rcases postShorturl_cases parseURL url with hq | ⟨hostname, _, hq⟩
    · simp only [handle, hq]; exact h
    · simp only [handle, hq]; exact lookupCallback_wellFormed _ _ _ h

theorem handle_counter_le (parseURL : String → Option URLRecord) (db : Registry)
    (req : Request) : db.shortUrlCounter ≤ (handle parseURL db req).1.shortUrlCounter := by
  cases req with
  | hello => exact le_refl _
  | visit k => exact le_refl _
  | create url dns =>
    rcases postShorturl_cases parseURL url with hq | ⟨hostname, _, hq⟩
    · simp only [handle, hq]; exact le_refl _
    · simp only [handle, hq]; exact lookupCallback_counter_le _ _ _

theorem handle_allTruthy (parseURL : String → Option URLRecord)
    (hp : SchemeRequired parseURL) (db : Registry) (req : Request) (h : db.AllTruthy) :
    (handle parseURL db req).1.AllTruthy := by
  cases req with
  | hello => exact h
  | visit k => exact h
  | create url dns =>
    rcases postShorturl_cases parseURL url with hq | ⟨hostname, ht, hq⟩
    · simp only [handle, hq]; exact h
    · simp only [handle, hq]
      exact lookupCallback_allTruthy _ _ _ h (truthy_of_tryBlock parseURL hp _ _ ht)

theorem handle_ownProperty (parseURL : String → Option URLRecord) (db : Registry)
    (req : Request) (h : db.WellFormed) (k : String) (v : JSValue)
    (hk : ownProperty db.urlDatabase k = some v) :
    ownProperty (handle parseURL db req).1.urlDatabase k = some v := by
  cases req with
  | hello => exact hk
  | visit k => exact hk
  | create url dns =>
    rcases postShorturl_cases parseURL url with hq | ⟨hostname, _, hq⟩
    · simp only [handle, hq]; exact hk
    · simp only [handle, hq]; exact lookupCallback_ownProperty _ _ _ h _ _ hk

theorem handle_issued (parseURL : String → Option URLRecord) (db : Registry)
    (req : Request) :
    issuedIds [(handle parseURL db req).2] =
      List.range' db.shortUrlCounter
        ((handle parseURL db req).1.shortUrlCounter - db.shortUrlCounter) := by
  cases req with
  | hello => simp [handle, issuedIds, shortUrlOf, getHello]
  | visit k =>
    simp only [handle, getShorturl]
    split <;> simp [issuedIds, shortUrlOf, notFound]
  | create url dns =>
    rcases postShorturl_cases parseURL url with hq | ⟨hostname, _, hq⟩
    · simp [handle, hq, issuedIds, shortUrlOf, invalidUrl]
    · simp only [handle, hq]; exact lookupCallback_issued _ _ _

theorem run_wellFormed (parseURL : String → Option URLRecord) (reqs : List Request) :
    ∀ db : Registry, db.WellFormed → (run parseURL db reqs).WellFormed := by
  induction reqs with
  | nil => intro db h; exact h
  | cons req rest ih => intro db h; exact ih _ (handle_wellFormed parseURL db req h)

theorem run_counter_le (parseURL : String → Option URLRecord) (reqs : List Request) :
    ∀ db : Registry, db.shortUrlCounter ≤ (run parseURL db reqs).shortUrlCounter := by
  induction reqs with
  | nil => intro db; exact le_refl _
  | cons req rest ih =>
    intro db
    exact le_trans (handle_counter_le parseURL db req) (ih _)

theorem run_allTruthy (parseURL : String → Option URLRecord) (hp : SchemeRequired parseURL)
    (reqs : List Request) :
    ∀ db : Registry, db.AllTruthy → (run parseURL db reqs).AllTruthy := by
  induction reqs with
  | nil => intro db h; exact h
  | cons req rest ih => intro db h; exact ih _ (handle_allTruthy parseURL hp db req h)

theorem run_ownProperty (parseURL : String → Option URLRecord) (reqs : List Request) :
    ∀ db : Registry, db.WellFormed → ∀ (k : String) (v : JSValue),
      ownProperty db.urlDatabase k = some v →
      ownProperty (run parseURL db reqs).urlDatabase k = some v := by
  induction reqs with
  | nil => intro db _ k v hk; exact hk
  | cons req rest ih =>
    intro db h k v hk
    exact ih _ (handle_wellFormed parseURL db req h) k v
      (handle_ownProperty parseURL db req h k v hk)

theorem initial_wellFormed : Registry.initial.WellFormed := by
  constructor
  · decide
  · rfl

theorem initial_allTruthy : Registry.initial.AllTruthy := by
  intro p hp
  simp [Registry.initial] at hp

theorem issuedIds_cons (r : Response) (rs : List Response) :
    issuedIds (r :: rs) = issuedIds [r] ++ issuedIds rs := by
  simp only [issuedIds]
  rw [← List.filterMap_append]
  rfl

theorem range'_split (a b c : Nat) (hab : a ≤ b) (hbc : b ≤ c) :
    List.range' a (b - a) ++ List.range' b (c - b) = List.range' a (c - a) := by
  obtain ⟨m, rfl⟩ : ∃ m, b = a + m := ⟨b - a, by omega⟩
  obtain ⟨n, rfl⟩ : ∃ n, c = a + m + n := ⟨c - (a + m), by omega⟩
  have h1 : a + m - a = m := by omega
  have h2 : a + m + n - (a + m) = n := by omega
  have h3 : a + m + n - a = n + m := by omega
  rw [h1, h2, h3, List.range'_append_1]

theorem responses_issued (parseURL : String → Option URLRecord) (reqs : List Request) :
    ∀ db : Registry, issuedIds (responses parseURL db reqs) =
      List.range' db.shortUrlCounter
        ((run parseURL db reqs).shortUrlCounter - db.shortUrlCounter) := by
  induction reqs with
  | nil => intro db; simp [responses, run, issuedIds]
  | cons req rest ih =>
    intro db
    simp only [responses, run]
    rw [issuedIds_cons, handle_issued, ih]
    exact range'_split _ _ _ (handle_counter_le parseURL db req) (run_counter_le parseURL rest _)

theorem numberToString_all_digits (n : Nat) :
    ∀ c ∈ (numberToString n).data, isDecimalDigit c = true := by
  rw [numberToString_data]
  exact all_isDigit_toDigits n

theorem prototypeName_not_numeral (k : String) (hk : k ∈ objectPrototypeNames) (n : Nat) :
    k ≠ numberToString n := by
  intro h
  have hall := numberToString_all_digits n
  rw [← h] at hall
  have hany : ∀ k ∈ objectPrototypeNames, k.data.any (fun c => !isDecimalDigit c) = true := by
    decide
  have := hany k hk
  simp only [List.any_eq_true, Bool.not_eq_true'] at this
  obtain ⟨c, hc, hcd⟩ := this
  rw [hall c hc] at hcd
  cases hcd

theorem getShorturl_inherited (db : Registry) (h : db.WellFormed) (k : String)
    (hk : k ∈ objectPrototypeNames) : getShorturl db k = .redirect (.inherited k) := by
  have hown : k ∉ ownKeys db.urlDatabase := by
    rw [h.2]
    intro hmem
    obtain ⟨j, _, hj⟩ := List.mem_map.1 hmem
    exact prototypeName_not_numeral k hk j hj.symm
  simp [getShorturl, getProperty, ownProperty_eq_none _ _ hown, hk, truthy]

theorem getShorturl_notFound (db : Registry) (k : String)
    (hown : k ∉ ownKeys db.urlDatabase) (hproto : k ∉ objectPrototypeNames) :
    getShorturl db k = notFound := by
  simp [getShorturl, getProperty, ownProperty_eq_none _ _ hown, hproto, truthy]

theorem getShorturl_found (db : Registry) (k : String) (v : JSValue)
    (hown : ownProperty db.urlDatabase k = some v) (hv : truthy v = true) :
    getShorturl db k = .redirect v := by
  simp [getShorturl, getProperty, hown, hv]

theorem sampleParseURL_schemeRequired : SchemeRequired sampleParseURL := by
  intro s h
  unfold sampleParseURL at h
  split at h
  · rename_i hs; subst hs; decide
  · split at h
    · rename_i hs; subst hs; decide
    · split at h
      · rename_i hs; subst hs; decide
      · cases h

/-! ## Lemmas on numeric strings -/

theorem digit_not_whiteSpace (c : Char) (h : isDecimalDigit c = true) :
    isStrWhiteSpace c = false := by
  simp only [isDecimalDigit, Bool.and_eq_true, decide_eq_true_eq] at h
  simp only [isStrWhiteSpace, decide_eq_false_iff_not, List.mem_cons, List.mem_singleton,
    List.not_mem_nil, or_false]
  omega

theorem dropWhile_of_head_not (p : Char → Bool) (l : List Char)
    (h : ∀ c ∈ l, p c = false) : l.dropWhile p = l := by
  cases l with
  | nil => rfl
  | cons c r => simp [List.dropWhile, h c (List.mem_cons_self _ _)]

theorem trimWhiteSpace_digits (ds : List Char) (hall : ∀ c ∈ ds, isDecimalDigit c = true) :
    trimWhiteSpace ds = ds := by
  unfold trimWhiteSpace
  rw [dropWhile_of_head_not _ ds (fun c hc => digit_not_whiteSpace c (hall c hc))]
  rw [dropWhile_of_head_not _ ds.reverse
    (fun c hc => digit_not_whiteSpace c (hall c (List.mem_reverse.1 hc)))]
  exact List.reverse_reverse ds

theorem readUnsigned_digits (ds : List Char) (hne : ds ≠ [])
    (hall : ∀ c ∈ ds, isDecimalDigit c = true) :
    readUnsigned ds = some (ofDigitChars ds, 0) := by
  have htake : ds.takeWhile isDecimalDigit = ds := List.takeWhile_eq_self_iff.2 hall
  have hdrop : ds.dropWhile isDecimalDigit = [] := List.dropWhile_eq_nil_iff.2 hall
  unfold readUnsigned
  simp only [htake, hdrop]
  simp [hne, readExponent]

theorem readNumber_numberToString (j : Nat) :
    readNumber (numberToString j) = some (false, j, 0) := by
  have hall : ∀ c ∈ Nat.toDigits 10 j, isDecimalDigit c = true := all_isDigit_toDigits j
  have hne := toDigits_ne_nil j
  have hval := ofDigitChars_toDigits j
  have hlist : (numberToString j).toList = Nat.toDigits 10 j := numberToString_data j
  unfold readNumber
  rw [hlist, trimWhiteSpace_digits _ hall]
  generalize Nat.toDigits 10 j = ds at hall hne hval
  cases ds with
  | nil => exact absurd rfl hne
  | cons c r =>
    have hc := hall c (List.mem_cons_self _ _)
    simp only [isDecimalDigit, Bool.and_eq_true, decide_eq_true_eq] at hc
    have h43 : ¬ c.toNat = 43 := by omega
    have h45 : ¬ c.toNat = 45 := by omega
    have hnd : readNonDecimal (c :: r) = none := by
      cases r with
      | nil => rfl
      | cons x rest =>
        have hx := hall x (List.mem_cons_of_mem _ (List.mem_cons_self _ _))
        simp only [isDecimalDigit, Bool.and_eq_true, decide_eq_true_eq] at hx
        have h1 : ¬ (x.toNat = 120 ∨ x.toNat = 88) := by omega
        have h2 : ¬ (x.toNat = 111 ∨ x.toNat = 79) := by omega
        have h3 : ¬ (x.toNat = 98 ∨ x.toNat = 66) := by omega
        simp [readNonDecimal, h1, h2, h3]
    simp only [hnd, h43, h45, if_false]
    rw [readUnsigned_digits _ hne hall, hval]
    rfl

theorem denotes_numberToString (j i : Nat) (h : denotes (numberToString j) i = true) :
    j = i := by
  unfold denotes at h
  rw [readNumber_numberToString] at h
  simpa using h

theorem prototypeName_not_numeric (k : String) (hk : k ∈ objectPrototypeNames) (i : Nat) :
    denotes k i = false := by
  have hall : ∀ k ∈ objectPrototypeNames, readNumber k = none := by decide
  unfold denotes
  rw [hall k hk]

/-! ## Lemmas on the event loop -/

theorem step_registry (parseURL : String → Option URLRecord) (s : Server) (ev : Event) :
    ((step parseURL s ev).1.registry = s.registry ∧
        issuedIds (step parseURL s ev).2.toList = []) ∨
      ∃ o dns, (step parseURL s ev).1.registry = (lookupCallback s.registry o dns).1 ∧
        (step parseURL s ev).2 = some (lookupCallback s.registry o dns).2 := by
  cases ev with
  | hello => exact Or.inl ⟨rfl, rfl⟩
  | get k =>
    left
    refine ⟨rfl, ?_⟩
    simp only [step, getShorturl, Option.toList]
    split <;> simp [issuedIds, shortUrlOf, notFound]
  | post url =>
    left
    rcases postShorturl_cases parseURL url with hq | ⟨hostname, _, hq⟩
    · simp [step, hq, issuedIds, shortUrlOf, invalidUrl]
    · simp [step, hq, issuedIds]
  | dnsDone i dns =>
    cases hg : s.pending[i]? with
    | none => left; simp [step, hg, issuedIds]
    | some p =>
      right
      obtain ⟨hostname, o⟩ := p
      exact ⟨o, dns, by simp [step, hg], by simp [step, hg]⟩

theorem step_wellFormed (parseURL : String → Option URLRecord) (s : Server) (ev : Event)
    (h : s.registry.WellFormed) : (step parseURL s ev).1.registry.WellFormed := by
  rcases step_registry parseURL s ev with ⟨h1, _⟩ | ⟨o, dns, h1, _⟩
  · rw [h1]; exact h
  · rw [h1]; exact lookupCallback_wellFormed _ _ _ h

theorem step_counter_le (parseURL : String → Option URLRecord) (s : Server) (ev : Event) :
    s.registry.shortUrlCounter ≤ (step parseURL s ev).1.registry.shortUrlCounter := by
  rcases step_registry parseURL s ev with ⟨h1, _⟩ | ⟨o, dns, h1, _⟩
  · rw [h1]
  · rw [h1]; exact lookupCallback_counter_le _ _ _

theorem step_issued (parseURL : String → Option URLRecord) (s : Server) (ev : Event) :
    issuedIds (step parseURL s ev).2.toList =
      List.range' s.registry.shortUrlCounter
        ((step parseURL s ev).1.registry.shortUrlCounter - s.registry.shortUrlCounter) := by
  rcases step_registry parseURL s ev with ⟨h1, h2⟩ | ⟨o, dns, h1, h2⟩
  · rw [h1, h2]; simp
  · rw [h1, h2]; exact lookupCallback_issued _ _ _

theorem runEvents_counter_le (parseURL : String → Option URLRecord) (evs : List Event) :
    ∀ s : Server,
      s.registry.shortUrlCounter ≤ (runEvents parseURL s evs).registry.shortUrlCounter := by
  induction evs with
  | nil => intro s; exact le_refl _
  | cons ev rest ih =>
    intro s
    exact le_trans (step_counter_le parseURL s ev) (ih _)

theorem eventResponses_cons (parseURL : String → Option URLRecord) (s : Server)
    (ev : Event) (rest : List Event) :
    eventResponses parseURL s (ev :: rest) =
      (step parseURL s ev).2.toList ++ eventResponses parseURL (step parseURL s ev).1 rest := by
  simp only [eventResponses]
  cases (step parseURL s ev).2 <;> rfl

theorem eventResponses_issued (parseURL : String → Option URLRecord) (evs : List Event) :
    ∀ s : Server, issuedIds (eventResponses parseURL s evs) =
      List.range' s.registry.shortUrlCounter
        ((runEvents parseURL s evs).registry.shortUrlCounter - s.registry.shortUrlCounter) := by
  induction evs with
  | nil => intro s; simp [eventResponses, runEvents, issuedIds]
  | cons ev rest ih =>
    intro s
    rw [eventResponses_cons]
    simp only [runEvents]
    have happ : ∀ a b : List Response, issuedIds (a ++ b) = issuedIds a ++ issuedIds b := by
      intro a b
      simp [issuedIds, List.filterMap_append]
    rw [happ, step_issued, ih]
    exact range'_split _ _ _ (step_counter_le parseURL s ev) (runEvents_counter_le parseURL rest _)

theorem handle_succeeds (parseURL : String → Option URLRecord) (db : Registry)
    (req : Request) (h : succeedsIn parseURL req = true) :
    (handle parseURL db req).1.shortUrlCounter = db.shortUrlCounter + 1 ∧
      shortUrlOf (handle parseURL db req).2 = some db.shortUrlCounter := by
  cases req with
  | hello => simp [succeedsIn] at h
  | visit k => simp [succeedsIn] at h
  | create url dns =>
    simp only [succeedsIn, Bool.and_eq_true, Bool.not_eq_true'] at h
    obtain ⟨ht, hf⟩ := h
    cases hq : tryBlock parseURL url with
    | error e => simp [hq] at ht
    | ok hostname =>
      simp only [handle, postShorturl, hq, lookupCallback_ok _ _ _ hf]
      exact ⟨trivial, rfl⟩

theorem handle_not_succeeds (parseURL : String → Option URLRecord) (db : Registry)
    (req : Request) (h : succeedsIn parseURL req = false) :
    (handle parseURL db req).1.shortUrlCounter = db.shortUrlCounter ∧
      shortUrlOf (handle parseURL db req).2 = none := by
  cases req with
  | hello => exact ⟨rfl, rfl⟩
  | visit k =>
    refine ⟨rfl, ?_⟩
    simp only [handle, getShorturl]
    split <;> rfl
  | create url dns =>
    cases hq : tryBlock parseURL url with
    | error e =>
      simp only [handle, postShorturl, hq]
      exact ⟨trivial, rfl⟩
    | ok hostname =>
      have hf : dns.failed = true := by
        simpa [succeedsIn, hq] using h
      simp only [handle, postShorturl, hq, lookupCallback_failed _ _ _ hf]
      exact ⟨trivial, rfl⟩

theorem responses_issued_count (parseURL : String → Option URLRecord) (reqs : List Request) :
    ∀ db : Registry, issuedIds (responses parseURL db reqs) =
      List.range' db.shortUrlCounter (reqs.countP (succeedsIn parseURL)) := by
  induction reqs with
  | nil => intro db; simp [responses, issuedIds]
  | cons req rest ih =>
    intro db
    simp only [responses]
    rw [issuedIds_cons, ih]
    cases hs : succeedsIn parseURL req
    · obtain ⟨hc, hr⟩ := handle_not_succeeds parseURL db req hs
      rw [hc, List.countP_cons_of_neg _ _ (by simp [hs])]
      simp [issuedIds, hr]
    · obtain ⟨hc, hr⟩ := handle_succeeds parseURL db req hs
      rw [hc, List.countP_cons_of_pos _ _ hs]
      simp [issuedIds, hr, List.range'_succ]

theorem responses_isSome (parseURL : String → Option URLRecord) (reqs : List Request) :
    ∀ db : Registry,
      (responses parseURL db reqs).map (fun r => (shortUrlOf r).isSome) =
        reqs.map (succeedsIn parseURL) := by
  induction reqs with
  | nil => intro db; rfl
  | cons req rest ih =>
    intro db
    simp only [responses, List.map_cons, ih]
    cases hs : succeedsIn parseURL req
    · rw [(handle_not_succeeds parseURL db req hs).2]; rfl
    · rw [(handle_succeeds parseURL db req hs).2]; rfl

/-! ## The claims -/

/-- C1: from the initial state, whatever requests are served (creations that
succeed, creations that fail, lookups), with `N` the number of requests that
are creations whose URL passes validation and whose hostname resolves: exactly
these requests are answered with a `short_url`, and the `short_url` values
returned are, in order, `1, 2, ..., N`, so the `k`-th successful creation
returns `k`. -/
theorem issuedIds_sequential (parseURL : String → Option URLRecord) (reqs : List Request) :
    issuedIds (responses parseURL Registry.initial reqs) =
        List.range' 1 (reqs.countP (succeedsIn parseURL)) ∧
      (responses parseURL Registry.initial reqs).map (fun r => (shortUrlOf r).isSome) =
        reqs.map (succeedsIn parseURL) := by
  constructor
  · have h := responses_issued_count parseURL reqs Registry.initial
    exact h
  · exact responses_isSome parseURL reqs Registry.initial

/-- C4: if the submitted value parses with protocol `http:` or `https:` and the
resolver answers with an error or without an address, the handler asks for the
resolution of the parsed hostname, the callback answers
`{ error: 'invalid url' }`, and the state is unchanged: no record is made. -/
theorem unresolved_hostname_rejected (parseURL : String → Option URLRecord) (db : Registry)
    (url : JSValue) (parsedUrl : URLRecord) (dns : DnsResult)
    (hparse : parseURL (toJSString url) = some parsedUrl)
    (hproto : parsedUrl.protocol = "http:" ∨ parsedUrl.protocol = "https:")
    (hdns : dns.err.isSome = true ∨ dns.address = none) :
    postShorturl parseURL url = .dnsLookup parsedUrl.hostname url ∧
      lookupCallback db url dns = (db, invalidUrl) ∧
      handle parseURL db (.create url dns) = (db, .json (.error "invalid url")) := by
  have hpost : postShorturl parseURL url = .dnsLookup parsedUrl.hostname url := by
    unfold postShorturl tryBlock
    rw [hparse]
    rcases hproto with h | h <;> simp [h]
  have hfail : dns.failed = true := by
    unfold DnsResult.failed
    rcases hdns with h | h
    · simp [h]
    · simp [h]
  refine ⟨hpost, lookupCallback_failed db url dns hfail, ?_⟩
  simp only [handle, hpost]
  exact lookupCallback_failed db url dns hfail

/-- Witness for C4: a valid `https` URL whose hostname does not resolve. -/
theorem unresolved_hostname_rejected_witness :
    postShorturl sampleParseURL (.str "https://www.freecodecamp.org") =
        .dnsLookup "www.freecodecamp.org" (.str "https://www.freecodecamp.org") ∧
      lookupCallback Registry.initial (.str "https://www.freecodecamp.org") unresolved =
        (Registry.initial, invalidUrl) ∧
      handle sampleParseURL Registry.initial
          (.create (.str "https://www.freecodecamp.org") unresolved) =
        (Registry.initial, .json (.error "invalid url")) :=
  unresolved_hostname_rejected sampleParseURL Registry.initial
    (.str "https://www.freecodecamp.org")
    { protocol := "https:", hostname := "www.freecodecamp.org" } unresolved
    (by decide) (by decide) (by decide)

/-- C5: if the submitted value (a string, an array, or `undefined` for a missing
field) does not parse, or parses with a protocol other than `http:` and
`https:`, the handler answers `{ error: 'invalid url' }` at once, without
calling `dns.lookup`; the state is unchanged; and the body is the one the
callback sends for a hostname that does not resolve. -/
theorem unparsable_rejected (parseURL : String → Option URLRecord) (db : Registry)
    (url : JSValue)
    (hbad : parseURL (toJSString url) = none ∨
      ∃ parsedUrl, parseURL (toJSString url) = some parsedUrl ∧
        parsedUrl.protocol ≠ "http:" ∧ parsedUrl.protocol ≠ "https:") :
    postShorturl parseURL url = .respond (.json (.error "invalid url")) ∧
      (∀ dns, handle parseURL db (.create url dns) = (db, .json (.error "invalid url"))) ∧
      (∀ o dns, dns.failed = true →
        (lookupCallback db o dns).2 = .json (.error "invalid url")) := by
  have hpost : postShorturl parseURL url = .respond (.json (.error "invalid url")) := by
    unfold postShorturl tryBlock
    rcases hbad with h | ⟨parsedUrl, h, h1, h2⟩
    · rw [h]; rfl
    · rw [h]; simp [h1, h2]; rfl
  refine ⟨hpost, ?_, ?_⟩
  · intro dns
    simp only [handle, hpost]
  · intro o dns hf
    rw [lookupCallback_failed db o dns hf]
    rfl

/-- Witness for C5: `ftp://example.com` parses with protocol `ftp:` and is
answered at once. -/
theorem unparsable_rejected_witness :
    postShorturl sampleParseURL (.str "ftp://example.com") =
      .respond (.json (.error "invalid url")) :=
  (unparsable_rejected sampleParseURL Registry.initial (.str "ftp://example.com")
    (Or.inr ⟨{ protocol := "ftp:", hostname := "example.com" },
      by decide, by decide, by decide⟩)).1

/-- C6: if the submitted string `u` parses with protocol `http:` or `https:` and
the resolver answers without error and with an address, the response is
`{ original_url: u, short_url: c }` with `c` the counter before the request and
`u` the submitted string itself (whatever the parser made of it); afterwards
`urlDatabase` has `u` under the key of `c`, nothing else in it has changed, and
the counter is `c + 1`. -/
theorem creation_succeeds (parseURL : String → Option URLRecord) (db : Registry)
    (u : String) (parsedUrl : URLRecord) (dns : DnsResult) (address : String)
    (hparse : parseURL u = some parsedUrl)
    (hproto : parsedUrl.protocol = "http:" ∨ parsedUrl.protocol = "https:")
    (herr : dns.err = none) (haddr : dns.address = some address) (hne : address ≠ "") :
    (handle parseURL db (.create (.str u) dns)).2 =
        .json (.shortened (.str u) db.shortUrlCounter) ∧
      ownProperty (handle parseURL db (.create (.str u) dns)).1.urlDatabase
        (numberToString db.shortUrlCounter) = some (.str u) ∧
      (∀ k, k ≠ numberToString db.shortUrlCounter →
        ownProperty (handle parseURL db (.create (.str u) dns)).1.urlDatabase k =
          ownProperty db.urlDatabase k) ∧
      (handle parseURL db (.create (.str u) dns)).1.shortUrlCounter =
        db.shortUrlCounter + 1 := by
  have hpost : postShorturl parseURL (.str u) = .dnsLookup parsedUrl.hostname (.str u) := by
    unfold postShorturl tryBlock
    simp only [toJSString]
    rw [hparse]
    rcases hproto with h | h <;> simp [h]
  have hok : dns.failed = false := by
    unfold DnsResult.failed
    simp [herr, haddr, hne]
  simp only [handle, hpost, lookupCallback_ok db (.str u) dns hok]
  refine ⟨trivial, ownProperty_setProperty_self _ _ _, ?_, trivial⟩
  intro k hk
  exact ownProperty_setProperty_ne _ _ _ _ hk

/-- Witness for C6: the first creation of `https://www.freecodecamp.org`. -/
theorem creation_succeeds_witness :
    (handle sampleParseURL Registry.initial
        (.create (.str "https://www.freecodecamp.org") resolved)).2 =
        .json (.shortened (.str "https://www.freecodecamp.org") 1) ∧
      ownProperty (handle sampleParseURL Registry.initial
        (.create (.str "https://www.freecodecamp.org") resolved)).1.urlDatabase
        (numberToString 1) = some (.str "https://www.freecodecamp.org") :=
  have h := creation_succeeds sampleParseURL Registry.initial "https://www.freecodecamp.org"
    { protocol := "https:", hostname := "www.freecodecamp.org" } resolved "104.26.2.33"
    (by decide) (by decide) (by decide) (by decide) (by decide)
  ⟨h.1, h.2.1⟩

/-- C2: in a state reached from the initial one, if the creation of a string `u`
is answered with `short_url` `id`, then after any further requests the lookup of
the decimal numeral of `id` redirects to `u` itself; and whatever is stored
under a key in a reached state is stored under it after any further requests.
The parser is assumed to accept only strings with a colon. -/
theorem round_trip (parseURL : String → Option URLRecord) (hp : SchemeRequired parseURL)
    (before later : List Request) (u : String) (dns : DnsResult) (id : Nat)
    (hcreate : (handle parseURL (run parseURL Registry.initial before)
      (.create (.str u) dns)).2 = .json (.shortened (.str u) id)) :
    getShorturl
        (run parseURL (handle parseURL (run parseURL Registry.initial before)
          (.create (.str u) dns)).1 later)
        (numberToString id) = .redirect (.str u) ∧
      ∀ (more : List Request) (k : String) (v : JSValue),
        ownProperty (run parseURL Registry.initial before).urlDatabase k = some v →
        ownProperty (run parseURL (run parseURL Registry.initial before) more).urlDatabase k =
          some v := by
  have hwf := run_wellFormed parseURL before _ initial_wellFormed
  have hwf' := handle_wellFormed parseURL _ (.create (.str u) dns) hwf
  constructor
  · have hstored : ownProperty (handle parseURL (run parseURL Registry.initial before)
        (.create (.str u) dns)).1.urlDatabase (numberToString id) = some (.str u) ∧
        truthy (.str u) = true := by
      rcases postShorturl_cases parseURL (.str u) with hq | ⟨hostname, ht, hq⟩
      · simp [handle, hq, invalidUrl] at hcreate
      · simp only [handle, hq] at hcreate ⊢
        cases hf : dns.failed
        · rw [lookupCallback_ok _ _ _ hf] at hcreate ⊢
          simp only [Response.json.injEq, JsonBody.shortened.injEq, true_and] at hcreate
          rw [← hcreate]
          exact ⟨ownProperty_setProperty_self _ _ _, truthy_of_tryBlock parseURL hp _ _ ht⟩
        · rw [lookupCallback_failed _ _ _ hf] at hcreate
          simp [invalidUrl] at hcreate
    exact getShorturl_found _ _ _
      (run_ownProperty parseURL later _ hwf' _ _ hstored.1) hstored.2
  · intro more k v hk
    exact run_ownProperty parseURL more _ hwf _ _ hk

/-- Witness for C2: the URL created second is found after two more requests. -/
theorem round_trip_witness :
    getShorturl
        (run sampleParseURL (handle sampleParseURL
          (run sampleParseURL Registry.initial
            [.create (.str "http://example.com/a,b") resolved])
          (.create (.str "https://www.freecodecamp.org") resolved)).1
          [.create (.str "http://example.com/a,b") resolved, .visit "1"])
        (numberToString 2) = .redirect (.str "https://www.freecodecamp.org") :=
  (round_trip sampleParseURL sampleParseURL_schemeRequired
    [.create (.str "http://example.com/a,b") resolved]
    [.create (.str "http://example.com/a,b") resolved, .visit "1"]
    "https://www.freecodecamp.org" resolved 2 (by decide)).1

/-- C3, evaluated: in every state reached from the initial one, the lookup of
`constructor`, which is the decimal numeral of no id, takes the found branch
and calls `res.redirect` with the member `constructor` of `Object.prototype`;
it does not answer with the not-found error. -/
theorem lookup_constructor_redirects (parseURL : String → Option URLRecord)
    (reqs : List Request) :
    getShorturl (run parseURL Registry.initial reqs) "constructor" =
        .redirect (.inherited "constructor") ∧
      getShorturl (run parseURL Registry.initial reqs) "constructor" ≠ notFound := by
  have h := getShorturl_inherited _ (run_wellFormed parseURL reqs _ initial_wellFormed)
    "constructor" (by decide)
  refine ⟨h, ?_⟩
  rw [h]
  decide

/-- C7: in every state reached from the initial one, each own key of
`urlDatabase` is the decimal numeral of an id from `1` up to the counter
excluded; no request decreases the counter, in any state; and the ids issued
along the way are pairwise different. -/
theorem registry_invariant (parseURL : String → Option URLRecord) (reqs : List Request) :
    (∀ k ∈ ownKeys (run parseURL Registry.initial reqs).urlDatabase,
      ∃ i, k = numberToString i ∧ 1 ≤ i ∧
        i < (run parseURL Registry.initial reqs).shortUrlCounter) ∧
    (∀ (db : Registry) (req : Request),
      db.shortUrlCounter ≤ (handle parseURL db req).1.shortUrlCounter) ∧
    (issuedIds (responses parseURL Registry.initial reqs)).Nodup := by
  refine ⟨?_, fun db req => handle_counter_le parseURL db req, ?_⟩
  · intro k hk
    have hwf := run_wellFormed parseURL reqs _ initial_wellFormed
    rw [hwf.2] at hk
    obtain ⟨i, hi, hik⟩ := List.mem_map.1 hk
    have := List.mem_range'_1.1 hi
    exact ⟨i, hik.symm, this.1, by omega⟩
  · rw [responses_issued]
    exact List.nodup_range' _ _

/-- C8: in every state, a lookup (found or not), `GET /api/hello`, and a creation
answered with `{ error: 'invalid url' }` leave `urlDatabase` and
`shortUrlCounter` as they were. -/
theorem state_changed_only_by_creation (parseURL : String → Option URLRecord)
    (db : Registry) :
    (∀ short_url, (handle parseURL db (.visit short_url)).1 = db) ∧
    (handle parseURL db .hello).1 = db ∧
    (∀ url dns, (handle parseURL db (.create url dns)).2 = .json (.error "invalid url") →
      (handle parseURL db (.create url dns)).1 = db) := by
  refine ⟨fun _ => rfl, rfl, ?_⟩
  intro url dns h
  rcases postShorturl_cases parseURL url with hq | ⟨hostname, _, hq⟩
  · simp only [handle, hq]
  · simp only [handle, hq] at h ⊢
    cases hf : dns.failed
    · rw [lookupCallback_ok _ _ _ hf] at h
      simp at h
    · rw [lookupCallback_failed _ _ _ hf]

/-- Witness for C8: a creation rejected for its protocol leaves the state as it
was. -/
theorem state_changed_only_by_creation_witness :
    (handle sampleParseURL Registry.initial
      (.create (.str "ftp://example.com") resolved)).1 = Registry.initial :=
  (state_changed_only_by_creation sampleParseURL Registry.initial).2.2
    (.str "ftp://example.com") resolved (by decide)

/-- C9: in the event loop, where any number of POST handlers may have called
`dns.lookup` before the callbacks run and the callbacks run in any order, a
turn either leaves the registry as it is or performs the whole of one creation
(the value stored under the key of the counter it read, the counter one more,
that counter value in the response); and for every sequence of turns from the
start the ids of the successful creations, in the order their callbacks ran,
are `1, 2, ..., N` with none repeated, and the counter ends at `N + 1`. -/
theorem interleaved_creations (parseURL : String → Option URLRecord) (evs : List Event) :
    (∀ (s : Server) (ev : Event),
      (step parseURL s ev).1.registry = s.registry ∨
        ∃ o, (step parseURL s ev).1.registry =
            { urlDatabase := setProperty s.registry.urlDatabase
                (numberToString s.registry.shortUrlCounter) o,
              shortUrlCounter := s.registry.shortUrlCounter + 1 } ∧
          (step parseURL s ev).2 = some (.json (.shortened o s.registry.shortUrlCounter))) ∧
    issuedIds (eventResponses parseURL Server.initial evs) =
      List.range' 1 (issuedIds (eventResponses parseURL Server.initial evs)).length ∧
    (issuedIds (eventResponses parseURL Server.initial evs)).Nodup ∧
    (runEvents parseURL Server.initial evs).registry.shortUrlCounter =
      (issuedIds (eventResponses parseURL Server.initial evs)).length + 1 := by
  have h := eventResponses_issued parseURL evs Server.initial
  have hlen := congrArg List.length h
  simp only [List.length_range'] at hlen
  have hle := runEvents_counter_le parseURL evs Server.initial
  have h1 : Server.initial.registry.shortUrlCounter = 1 := rfl
  refine ⟨?_, ?_, ?_, ?_⟩
  · intro s ev
    rcases step_registry parseURL s ev with ⟨hr, _⟩ | ⟨o, dns, hr, hresp⟩
    · exact Or.inl hr
    · cases hf : dns.failed
      · right
        rw [lookupCallback_ok _ _ _ hf] at hr hresp
        exact ⟨o, hr, hresp⟩
      · left
        rw [lookupCallback_failed _ _ _ hf] at hr
        exact hr
  · rw [hlen]
    exact h
  · rw [h]
    exact List.nodup_range' _ _
  · rw [hlen]
    omega

/-- C10: in a state reached from the initial one, for an id `i` issued on the
way, the lookup of the decimal numeral of `i` takes the found branch with the
value stored for `i`, and the lookup of any other string that is decimal
notation for the number `i` (leading zeros, a sign, a fraction, an exponent,
white space around it) is answered with the not-found error.  The parser is
assumed to accept only strings with a colon. -/
theorem lookup_is_exact_string_match (parseURL : String → Option URLRecord)
    (hp : SchemeRequired parseURL) (reqs : List Request) (i : Nat)
    (hi : i ∈ issuedIds (responses parseURL Registry.initial reqs)) :
    (∃ v, ownProperty (run parseURL Registry.initial reqs).urlDatabase
          (numberToString i) = some v ∧
        getShorturl (run parseURL Registry.initial reqs) (numberToString i) = .redirect v) ∧
      ∀ k : String, denotes k i = true → k ≠ numberToString i →
        getShorturl (run parseURL Registry.initial reqs) k = notFound := by
  have hwf := run_wellFormed parseURL reqs _ initial_wellFormed
  have htr := run_allTruthy parseURL hp reqs _ initial_allTruthy
  rw [responses_issued] at hi
  have hmem : numberToString i ∈ ownKeys (run parseURL Registry.initial reqs).urlDatabase := by
    rw [hwf.2]
    refine List.mem_map.2 ⟨i, ?_, rfl⟩
    have h1 : Registry.initial.shortUrlCounter = 1 := rfl
    rw [h1] at hi
    exact hi
  constructor
  · obtain ⟨v, hv⟩ := ownProperty_isSome_of_mem _ _ hmem
    exact ⟨v, hv, getShorturl_found _ _ _ hv (htr _ (ownProperty_mem _ _ _ hv))⟩
  · intro k hk hne
    apply getShorturl_notFound
    · rw [hwf.2]
      intro hkm
      obtain ⟨j, _, hj⟩ := List.mem_map.1 hkm
      rw [← hj] at hk hne
      exact hne (by rw [denotes_numberToString j i hk])
    · intro hproto
      rw [prototypeName_not_numeric k hproto i] at hk
      cases hk

/-- Witness for C10: after one creation, `1` is found and `01` is not. -/
theorem lookup_is_exact_string_match_witness :
    getShorturl (run sampleParseURL Registry.initial
        [.create (.str "https://www.freecodecamp.org") resolved]) "01" = notFound :=
  (lookup_is_exact_string_match sampleParseURL sampleParseURL_schemeRequired
    [.create (.str "https://www.freecodecamp.org") resolved] 1 (by decide)).2
    "01" (by decide) (by decide)

end UrlShortener
